import Mathlib

/-!
Shallow embedding of `src/GanttPlotter/GanttPlotter.py` (module `GanttPlotter`,
version 0.3).  Python floats are modelled exactly as rationals (`ℚ`) wherever the
program only performs field operations on concrete literals; the golden-ratio
color generator, which involves `sqrt` and an irrational constant, is modelled
over `ℝ`.  Python `dict`s (insertion ordered, first-occurrence update) are
modelled as association lists.  Fallible operations (`list.index`, `dict[...]`,
`JobTypes(x)`, `.tolist()` on `None`) return `Option`.
-/

namespace GanttSpec

/-- The `JobTypes` enum: `PROCESS = 1`, `CHANGEOVER = 2`. -/
inductive JobTypes where
  | PROCESS
  | CHANGEOVER
deriving DecidableEq, Repr

/-- The `.value` of a `JobTypes` member. -/
def JobTypes.value : JobTypes → ℤ
  | .PROCESS => 1
  | .CHANGEOVER => 2

/-- The enum call `JobTypes(x)`, which raises `ValueError` (here: `none`) on a
value that is not 1 or 2. -/
def JobTypes.fromValue : ℤ → Option JobTypes
  | 1 => some JobTypes.PROCESS
  | 2 => some JobTypes.CHANGEOVER
  | _ => none

/-- A `GanttJob`.  `job_type` is an `Option` because the constructor may be
passed `None` explicitly (the Python default is `JobTypes.PROCESS`, but
`from_json` reconstructs a null code as `None`). -/
structure GanttJob where
  start_time : ℚ
  duration : ℚ
  resource : String
  name : String
  job_type : Option JobTypes
deriving DecidableEq, Repr

/-- An RGB color triple, as produced by `matplotlib.colors.hsv_to_rgb`. -/
abbrev Color : Type := ℚ × ℚ × ℚ

/-- `matplotlib.colors.hsv_to_rgb` on a single HSV triple, mirrored from
matplotlib's vectorised implementation: `i = int(h*6)` (truncation; all inputs
in this program are nonnegative, where truncation agrees with `⌊⌋`),
`f = h*6 - i`, then the branch for `i % 6 == 0` is applied first and the
branches for `i == 1`..`i == 5` afterwards; for any other `i` matplotlib leaves
the output buffer uninitialised (unreachable for the inputs this program uses,
modelled as `(0,0,0)`); finally `s == 0` forces the gray `(v,v,v)`. -/
def hsv_to_rgb (h s v : ℚ) : Color :=
  let i : ℤ := ⌊h * 6⌋
  let f : ℚ := h * 6 - (i : ℚ)
  let p : ℚ := v * (1 - s)
  let q : ℚ := v * (1 - s * f)
  let t : ℚ := v * (1 - s * (1 - f))
  let rgb : Color :=
    if i % 6 = 0 then (v, t, p)
    else if i = 1 then (q, v, p)
    else if i = 2 then (p, v, t)
    else if i = 3 then (p, q, v)
    else if i = 4 then (t, p, v)
    else if i = 5 then (v, p, q)
    else (0, 0, 0)
  if s = 0 then (v, v, v) else rgb

/-- `processing_color = hsv_to_rgb([44 / 360, 0.70, 0.9])`
(from `_generate_color_dict`, also used by `_create_legend`). -/
def processing_color : Color := hsv_to_rgb (44 / 360) (70 / 100) (9 / 10)

/-- `changeover_color = hsv_to_rgb([180, 0.1, 1])`
(from `_generate_color_dict`; note the hue is passed as `180`, not divided
by 360 like `processing_color`'s hue). -/
def changeover_color : Color := hsv_to_rgb 180 (1 / 10) 1

/-- The `_job_color_dict`: a Python dict from job name to either a numpy color
array or `None`, modelled as an insertion-ordered association list whose stored
value is `Option Color` (`none` models a stored Python `None`). -/
abbrev ColorDict : Type := List (String × Option Color)

/-- Python `d[k]` / `k in d`: the value at the first matching key. -/
def dictLookup : ColorDict → String → Option (Option Color)
  | [], _ => none
  | (k, v) :: rest, n => if k = n then some v else dictLookup rest n

/-- Python `k in d`. -/
def dictHasKey (d : ColorDict) (n : String) : Bool :=
  (dictLookup d n).isSome

/-- Python `d[k] = v`: replaces the first matching entry in place (keeping its
position, as Python dicts do), or appends a new entry at the end. -/
def dictSet : ColorDict → String → Option Color → ColorDict
  | [], k, v => [(k, v)]
  | (k0, v0) :: rest, k, v =>
    if k0 = k then (k, v) :: rest else (k0, v0) :: dictSet rest k v

/-- `np.array_equal(a, b)` on the values stored in the color dict: two equal
float arrays compare `True`, `None` vs `None` compares `True`, an array vs
`None` compares `False` (shape mismatch). -/
def arrayEqual : Option Color → Option Color → Bool
  | some x, some y => decide (x = y)
  | none, none => true
  | _, _ => false

/-- Python truthiness of the `Optional[int]` layout overrides: `None` and `0`
are falsy, every other integer is truthy (`if self.xticks_step_size:` /
`if self.xticks_max_value:`). -/
def optTruthy : Option ℤ → Bool
  | none => false
  | some v => decide (v ≠ 0)

/-- `_find_xticks(step_size, max_value)`: ticks `0, step, 2*step, ...` up to
`max_value // step_size` many steps, then `max_value` appended
unconditionally; labels are the string renderings of the tick values
(Python's `str`; the exact rendering of numbers is not load-bearing and is
modelled by `toString`). -/
def find_xticks (step_size max_value : ℚ) : List ℚ × List String :=
  let number_full_ticks : ℤ := ⌊max_value / step_size⌋ + 1
  let xticks : List ℚ :=
    (List.range number_full_ticks.toNat).map (fun ii : ℕ => (ii : ℚ) * step_size)
  let xticklabels : List String := xticks.map toString
  (xticks ++ [max_value], xticklabels ++ [toString max_value])

/-- `_find_yticks`: tick `count` (0-based) at `origin_offset + (count+1) * 10`
with `origin_offset = 5` and `_y_tick_distance = 10`; labels are the resource
names in stored order. -/
def find_yticks (resources : List String) : List ℚ × List String :=
  ((List.range resources.length).map (fun count : ℕ => 5 + ((count : ℚ) + 1) * 10),
   resources)

/-- `_get_bar_height(resource)`: `yticklabels.index(resource)` raises
`ValueError` (modelled as `none`) when the resource is absent; otherwise the
tick value minus the origin offset 5. -/
def get_bar_height (resources : List String) (resource : String) : Option ℚ :=
  let yticks := (find_yticks resources).1
  let yticklabels := (find_yticks resources).2
  (yticklabels.indexOf? resource).bind (fun index => (yticks.get? index).map (fun y => y - 5))

/-- `_find_xmaxlim`: the `xticks_max_value` override when truthy, otherwise the
largest job end time (`start_time + duration`), floored at 1. -/
def find_xmaxlim (xticks_max_value : Option ℤ) (jobs : List GanttJob) : ℚ :=
  if optTruthy xticks_max_value then ((xticks_max_value.getD 0 : ℤ) : ℚ)
  else
    let last_endtime : ℚ := jobs.foldl
      (fun last_endtime job =>
        if job.start_time + job.duration > last_endtime then job.start_time + job.duration
        else last_endtime) 0
    max 1 last_endtime

/-- The x-axis part of `_setup_axis_ticks`: an explicit tick/label list is
produced only when `xticks_step_size` is truthy; otherwise the drawing surface
keeps its automatic ticks (modelled as `none`). -/
def setup_axis_xticks (xticks_step_size xticks_max_value : Option ℤ)
    (jobs : List GanttJob) : Option (List ℚ × List String) :=
  if optTruthy xticks_step_size then
    some (find_xticks ((xticks_step_size.getD 0 : ℤ) : ℚ) (find_xmaxlim xticks_max_value jobs))
  else none

/-- The overwrite-warning condition of `_generate_color_dict`:
`job.name in self._job_color_dict and not np.array_equal(self._job_color_dict[job.name], new_color)`. -/
def warnOn (d : ColorDict) (n : String) (new_color : Option Color) : Bool :=
  match dictLookup d n with
  | some stored => !(arrayEqual stored new_color)
  | none => false

/-- The loop body of `_generate_color_dict`, recursing over the job list with
the current dictionary and `color_index`.  Returns the final dictionary and
the list of job names for which an overwrite warning was emitted, in order.
The `colors` parameter stands for the list `self._generate_colors()` computed
at the top of the method (whose float values are modelled separately over `ℝ`);
the source indexes it with `colors[color_index]`, which can only be out of
range if the palette is shorter than the number of fresh names (never the case
for the palette the caller builds), modelled by `getD` with a junk default. -/
def runColorDict (colors : List Color) (mode : ℤ) :
    List GanttJob → ColorDict → ℕ → ColorDict × List String
  | [], dict, _ => (dict, [])
  | job :: rest, dict, color_index =>
    let step : Option (Option Color × ℕ) :=
      if mode = 0 then
        -- Unique color for each job name
        if dictHasKey dict job.name then none
        else some (some (colors.getD color_index default), color_index + 1)
      else if mode = 1 then
        -- Unique color for each processing job, fixed color for changeovers
        if job.job_type = some JobTypes.CHANGEOVER then
          some (some changeover_color, color_index)
        else if dictHasKey dict job.name then none
        else some (some (colors.getD color_index default), color_index + 1)
      else if mode = 2 then
        -- All processing jobs share one color, all changeovers another
        if job.job_type = some JobTypes.CHANGEOVER then
          some (some changeover_color, color_index)
        else some (some processing_color, color_index)
      else
        -- any other mode falls through with new_color = None
        some (none, color_index)
    match step with
    | none => runColorDict colors mode rest dict color_index
    | some (new_color, color_index2) =>
      let warn : Bool := warnOn dict job.name new_color
      let dict2 := dictSet dict job.name new_color
      let result := runColorDict colors mode rest dict2 color_index2
      (result.1, (if warn then [job.name] else []) ++ result.2)

/-- `_generate_color_dict(mode)` run against a given starting dictionary
(`self._job_color_dict`): final dictionary and emitted overwrite warnings. -/
def generate_color_dict (colors : List Color) (mode : ℤ) (jobs : List GanttJob)
    (dict : ColorDict) : ColorDict × List String :=
  runColorDict colors mode jobs dict 0

/-- `_get_unique_job_names`: `list(dict.fromkeys(all_job_names))`, i.e. the job
names deduplicated keeping first occurrences in order. -/
def unique_job_names (jobs : List GanttJob) : List String :=
  jobs.foldl (fun acc job => if job.name ∈ acc then acc else acc ++ [job.name]) []

/-- A Python list comprehension over a fallible body: evaluates left to right
and propagates the first failure. -/
def mapOption (f : α → Option β) : List α → Option (List β)
  | [] => some []
  | x :: xs =>
    match f x with
    | none => none
    | some y => (mapOption f xs).map (fun ys => y :: ys)

/-- One step of `_plot_jobs`'s `defaultdict(list)` grouping: append `job` to
the group keyed by its resource, creating the group at the end on first
sight. -/
def addToGroup : List (String × List GanttJob) → GanttJob → List (String × List GanttJob)
  | [], job => [(job.resource, [job])]
  | (r, js) :: rest, job =>
    if r = job.resource then (r, js ++ [job]) :: rest
    else (r, js) :: addToGroup rest job

/-- The `resource_job_dict` built by `_plot_jobs`: jobs grouped by resource,
groups in first-seen order, jobs within a group in input order. -/
def groupJobsByResource (jobs : List GanttJob) : List (String × List GanttJob) :=
  jobs.foldl addToGroup []

/-- `_generate_bars_for_resource`: the `(start_time, duration)` intervals and
the parallel facecolor list; `self._get_color_for(job.name)` raises `KeyError`
(here `none`) when the name is absent from the color dictionary (a stored
Python `None` is a present value and is passed through). -/
def generate_bars_for_resource (dict : ColorDict) (job_list : List GanttJob) :
    Option (List (ℚ × ℚ) × List (Option Color)) :=
  (mapOption (fun job => dictLookup dict job.name) job_list).map
    (fun facecolors => (job_list.map (fun job => (job.start_time, job.duration)), facecolors))

/-- The draw command `_plot_jobs` emits for one resource group: the broken
bars, the band's lower y coordinate, and the facecolors. -/
structure ResourceBars where
  bars : List (ℚ × ℚ)
  lower_yaxis : ℚ
  facecolors : List (Option Color)
deriving DecidableEq

/-- The layout pass of `_plot_jobs`: for every resource group, build its bars
and colors and its band placement; any failing lookup (unknown resource in
`_get_bar_height`, unknown job name in the color dictionary) aborts the whole
call (`none`). -/
def plot_jobs (resources : List String) (dict : ColorDict) (jobs : List GanttJob) :
    Option (List ResourceBars) :=
  mapOption (fun group => do
    let bf ← generate_bars_for_resource dict group.2
    let lower_yaxis ← get_bar_height resources group.1
    pure ⟨bf.1, lower_yaxis, bf.2⟩) (groupJobsByResource jobs)

/-- One serialized job record of the `to_json` document: `job_type` is its
integer enum code, or null. -/
structure JobDoc where
  start_time : ℚ
  duration : ℚ
  resource : String
  name : String
  job_type : Option ℤ
deriving DecidableEq, Repr

/-- The document produced by `to_json` (flattened: the Python nesting under
`metadata` / `attributes` carries no behavior). -/
structure ScheduleDoc where
  creation_date : String
  gantt_plotter_version : ℚ
  y_tick_distance : ℚ
  barheight : ℚ
  job_color_dict : List (String × Color)
  xticks_step_size : Option ℤ
  xticks_max_value : Option ℤ
  resources : List String
  jobs : List JobDoc
deriving DecidableEq

/-- The state of a `GanttPlotter` instance (the fields `to_json`/`from_json`
read and write). -/
structure PlotterState where
  y_tick_distance : ℚ
  barheight : ℚ
  jobs : List GanttJob
  resources : List String
  job_color_dict : ColorDict
  xticks_step_size : Option ℤ
  xticks_max_value : Option ℤ
deriving DecidableEq

/-- Serialization of one job: `job.job_type.value if job.job_type else None`
(every enum member is truthy, `None` is falsy). -/
def jobToDoc (job : GanttJob) : JobDoc :=
  { start_time := job.start_time
    duration := job.duration
    resource := job.resource
    name := job.name
    job_type := job.job_type.map JobTypes.value }

/-- `to_json`: builds the schedule document.  `creation_date` is
`datetime.now().isoformat()`, passed in as `now`.  The dictionary
comprehension calls `value.tolist()`, which raises (here `none`) if a stored
value is `None` rather than a numpy array. -/
def to_json (now : String) (p : PlotterState) : Option ScheduleDoc :=
  (mapOption (fun (kv : String × Option Color) => kv.2.map (fun c => (kv.1, c))) p.job_color_dict).map
    (fun dictList =>
      { creation_date := now
        gantt_plotter_version := 3 / 10
        y_tick_distance := p.y_tick_distance
        barheight := p.barheight
        job_color_dict := dictList
        xticks_step_size := p.xticks_step_size
        xticks_max_value := p.xticks_max_value
        resources := p.resources
        jobs := p.jobs.map jobToDoc })

/-- Reconstruction of one job by `from_json`:
`JobTypes(job_data["job_type"]) if job_data["job_type"] else None` — a null or
zero stored code yields `None`; any other code goes through the enum call,
which raises (here `none`) on codes outside {1, 2}. -/
def jobFromDoc (jd : JobDoc) : Option GanttJob :=
  match jd.job_type with
  | none =>
    some { start_time := jd.start_time, duration := jd.duration,
           resource := jd.resource, name := jd.name, job_type := none }
  | some code =>
    if code = 0 then
      some { start_time := jd.start_time, duration := jd.duration,
             resource := jd.resource, name := jd.name, job_type := none }
    else
      (JobTypes.fromValue code).map (fun t =>
        { start_time := jd.start_time, duration := jd.duration,
          resource := jd.resource, name := jd.name, job_type := some t })

/-- `from_json`: rebuilds the plotter from the document — jobs and resources
from their records, then the constructor defaults for `_y_tick_distance`,
`_barheight` and `_job_color_dict` are overwritten from the document's
attribute block (`np.array(value)` turns each stored list back into an
array). -/
def from_json (doc : ScheduleDoc) : Option PlotterState :=
  (mapOption jobFromDoc doc.jobs).map (fun jobs =>
    { y_tick_distance := doc.y_tick_distance
      barheight := doc.barheight
      jobs := jobs
      resources := doc.resources
      job_color_dict := doc.job_color_dict.map (fun kv => (kv.1, some kv.2))
      xticks_step_size := doc.xticks_step_size
      xticks_max_value := doc.xticks_max_value })

/-- The golden ratio `(1 + 5 ** 0.5) / 2` from `_generate_colors`. -/
noncomputable def phi : ℝ := (1 + Real.sqrt 5) / 2

/-- `math.fmod(x, y)` for nonnegative arguments (the only use in
`_generate_colors`): `x - y * ⌊x / y⌋`. -/
noncomputable def pyFmod (x y : ℝ) : ℝ := x - y * (⌊x / y⌋ : ℝ)

/-- `matplotlib.colors.hsv_to_rgb` over `ℝ` (same shape as the exact `ℚ`
model above, for the irrational HSV triples of `_generate_colors`). -/
noncomputable def hsv_to_rgb_real (h s v : ℝ) : ℝ × ℝ × ℝ :=
  let i : ℤ := ⌊h * 6⌋
  let f : ℝ := h * 6 - (i : ℝ)
  let p : ℝ := v * (1 - s)
  let q : ℝ := v * (1 - s * f)
  let t : ℝ := v * (1 - s * (1 - f))
  let rgb : ℝ × ℝ × ℝ :=
    if i % 6 = 0 then (v, t, p)
    else if i = 1 then (q, v, p)
    else if i = 2 then (p, v, t)
    else if i = 3 then (p, q, v)
    else if i = 4 then (t, p, v)
    else if i = 5 then (v, p, q)
    else (0, 0, 0)
  if s = 0 then (v, v, v) else rgb

/-- The color the `_generate_colors` list comprehension produces for index `i`:
hue `fmod(i * 1/φ, 1.0)`, saturation `0.5`, value `sqrt(1.0 - fmod(i * 1/φ, 0.5))`,
converted to RGB. -/
noncomputable def colorForIndex (i : ℕ) : ℝ × ℝ × ℝ :=
  hsv_to_rgb_real (pyFmod ((i : ℝ) * (1 / phi)) 1) (1 / 2)
    (Real.sqrt (1 - pyFmod ((i : ℝ) * (1 / phi)) (1 / 2)))

/-- `_generate_colors`, with the loop bound `num_colors`
(`self._calc_num_colors_needed()`, the number of unique job names) made a
parameter: `[color(i) for i in range(0, num_colors)]`. -/
noncomputable def generate_colors (num_colors : ℕ) : List (ℝ × ℝ × ℝ) :=
  (List.range num_colors).map colorForIndex


/-! ### Dictionary lemmas -/

theorem dictLookup_dictSet_self (d : ColorDict) (k : String) (v : Option Color) :
    dictLookup (dictSet d k v) k = some v := by
  induction d with
  | nil => simp [dictSet, dictLookup]
  | cons kv rest ih =>
    obtain ⟨k0, v0⟩ := kv
    by_cases h : k0 = k
    · simp [dictSet, h, dictLookup]
    · simp [dictSet, h, dictLookup, ih]

theorem dictLookup_dictSet_ne (d : ColorDict) (k n : String) (v : Option Color)
    (h : k ≠ n) : dictLookup (dictSet d k v) n = dictLookup d n := by
  induction d with
  | nil => simp [dictSet, dictLookup, h]
  | cons kv rest ih =>
    obtain ⟨k0, v0⟩ := kv
    by_cases h0 : k0 = k
    · subst h0
      simp [dictSet, dictLookup, h]
    · simp only [dictSet, if_neg h0, dictLookup]
      by_cases h1 : k0 = n
      · simp [h1]
      · simp [h1, ih]

theorem dictSet_eq_self (d : ColorDict) (k : String) (v : Option Color)
    (h : dictLookup d k = some v) : dictSet d k v = d := by
  induction d with
  | nil => simp [dictLookup] at h
  | cons kv rest ih =>
    obtain ⟨k0, v0⟩ := kv
    by_cases h0 : k0 = k
    · subst h0
      simp only [dictLookup, if_pos trivial, eq_self_iff_true, if_true, Option.some.injEq] at h
      simp [dictSet, h]
    · simp only [dictLookup, if_neg h0] at h
      simp [dictSet, h0, ih h]

theorem dictHasKey_dictSet (d : ColorDict) (k n : String) (v : Option Color) :
    dictHasKey (dictSet d k v) n = (dictHasKey d n || decide (n = k)) := by
  by_cases h : k = n
  · subst h
    simp [dictHasKey, dictLookup_dictSet_self]
  · have h2 : ¬n = k := fun hn => h hn.symm
    simp [dictHasKey, dictLookup_dictSet_ne d k n v h, h2]

theorem dictSet_append_of_not_mem (d : ColorDict) (k : String) (v : Option Color)
    (h : dictLookup d k = none) : dictSet d k v = d ++ [(k, v)] := by
  induction d with
  | nil => simp [dictSet]
  | cons kv rest ih =>
    obtain ⟨k0, v0⟩ := kv
    by_cases h0 : k0 = k
    · simp [dictLookup, h0] at h
    · simp only [dictLookup, if_neg h0] at h
      simp [dictSet, h0, ih h]

theorem arrayEqual_refl (v : Option Color) : arrayEqual v v = true := by
  cases v <;> simp [arrayEqual]

/-! ### Evaluations of the fixed colors -/

theorem changeover_color_eval : changeover_color = ((1 : ℚ), 9 / 10, 9 / 10) := by
  have h : ⌊(180 : ℚ) * 6⌋ = 1080 := by
    rw [Int.floor_eq_iff]
    norm_num
  simp only [changeover_color, hsv_to_rgb, h]
  norm_num

theorem processing_color_eval : processing_color = ((9 / 10 : ℚ), 183 / 250, 27 / 100) := by
  have h : ⌊(44 : ℚ) / 360 * 6⌋ = 0 := by
    rw [Int.floor_eq_iff]
    norm_num
  simp only [processing_color, hsv_to_rgb, h]
  norm_num

theorem hsv_half_hue_eval : hsv_to_rgb (180 / 360) (1 / 10) 1 = ((9 / 10 : ℚ), 1, 1) := by
  have h : ⌊(180 : ℚ) / 360 * 6⌋ = 3 := by
    rw [Int.floor_eq_iff]
    norm_num
  simp only [hsv_to_rgb, h]
  norm_num

/-! ### Claim C10 -/

/-- Claim C10: setting either x-tick override to `0` behaves exactly as
leaving it unset — `_find_xmaxlim` falls back to the job end times (with
floor 1) and `_setup_axis_ticks` generates no explicit x-tick list — because
the override checks test Python truthiness, not presence. -/
theorem zero_override_behaves_as_unset (maxv : Option ℤ) (jobs : List GanttJob) :
    find_xmaxlim (some 0) jobs = find_xmaxlim none jobs ∧
    setup_axis_xticks (some 0) maxv jobs = setup_axis_xticks none maxv jobs ∧
    setup_axis_xticks none maxv jobs = none ∧
    find_xmaxlim (some 0) jobs = max 1 (jobs.foldl
      (fun last_endtime job =>
        if job.start_time + job.duration > last_endtime then job.start_time + job.duration
        else last_endtime) 0) := by
  refine ⟨rfl, rfl, rfl, rfl⟩

/-! ### Claim C6 -/

/-- Claim C6: the x-axis upper bound is the `xticks_max_value` override when
that override is set (to a truthy value, per `if self.xticks_max_value:`; the
zero edge case is claim C10), and otherwise the maximum job end time
`start_time + duration`, floored at 1 (so an empty schedule gets exactly 1). -/
theorem find_xmaxlim_spec :
    (∀ (v : ℤ), v ≠ 0 → ∀ jobs : List GanttJob, find_xmaxlim (some v) jobs = (v : ℚ)) ∧
    (∀ jobs : List GanttJob,
      find_xmaxlim none jobs =
        max 1 ((jobs.map (fun job => job.start_time + job.duration)).foldl max 0)) := by
  constructor
  · intro v hv jobs
    simp [find_xmaxlim, optTruthy, hv]
  · intro jobs
    simp only [find_xmaxlim, optTruthy, Bool.false_eq_true, if_false]
    congr 1
    rw [List.foldl_map]
    congr 1
    funext a job
    rcases lt_or_le a (job.start_time + job.duration) with h | h
    · simp [h, max_eq_right h.le]
    · simp [not_lt.mpr h, max_eq_left h]

theorem find_xmaxlim_spec_witness :
    ((160 : ℤ) ≠ 0 ∧ find_xmaxlim (some 160) [] = (160 : ℚ)) ∧
    find_xmaxlim none [] = 1 ∧
    find_xmaxlim none
      [⟨40, 50, "U1", "Job1", some JobTypes.PROCESS⟩,
       ⟨110, 10, "U2", "Job2", some JobTypes.PROCESS⟩,
       ⟨150, 10, "U2", "Job1", some JobTypes.PROCESS⟩] = 160 := by
  refine ⟨⟨by norm_num, find_xmaxlim_spec.1 160 (by norm_num) []⟩, ?_, ?_⟩
  · norm_num [find_xmaxlim, optTruthy]
  · norm_num [find_xmaxlim, optTruthy, List.foldl]

/-! ### Claim C7 -/

/-- Claim C7: each generated color is a pure function of its own index
(hue `fmod(i/φ, 1)`, saturation `0.5`, value `sqrt(1 - fmod(i/φ, 0.5))`), so
for `N1 < N2` the first `N1` colors of the `N2`-sized sequence are exactly the
`N1`-sized sequence. -/
theorem generate_colors_prefix_stable (n1 n2 : ℕ) (h : n1 < n2) :
    (generate_colors n2).take n1 = generate_colors n1 := by
  unfold generate_colors
  rw [← List.map_take, List.take_range n1 n2, min_eq_left h.le]

theorem generate_colors_prefix_stable_witness :
    2 < 5 ∧ (generate_colors 5).take 2 = generate_colors 2 :=
  ⟨by decide, generate_colors_prefix_stable 2 5 (by decide)⟩

/-! ### Claim C2 -/

/-- Claim C2 (code-bug evidence): under modes 1 and 2 a CHANGEOVER job's name
is mapped to `changeover_color = hsv_to_rgb [180, 0.1, 1]`, whose hue is
passed unnormalised (not divided by 360 like the processing hue `44/360`);
matplotlib folds `int(180*6) = 1080` into its `i % 6 == 0` branch, producing
the pale pink `(1, 0.9, 0.9)` instead of the pale gray-blue
`hsv_to_rgb (180/360) 0.1 1 = (0.9, 1, 1)` that the claim states.  The
mode-2 PROCESS color `hsv_to_rgb (44/360) 0.70 0.9` is as claimed. -/
theorem changeover_color_is_not_hue_normalized :
    (generate_color_dict [] 1 [⟨0, 1, "R", "A", some JobTypes.CHANGEOVER⟩] []).1 =
      [("A", some changeover_color)] ∧
    (generate_color_dict [] 2 [⟨0, 1, "R", "A", some JobTypes.CHANGEOVER⟩] []).1 =
      [("A", some changeover_color)] ∧
    changeover_color = ((1 : ℚ), 9 / 10, 9 / 10) ∧
    hsv_to_rgb (180 / 360) (1 / 10) 1 = ((9 / 10 : ℚ), 1, 1) ∧
    changeover_color ≠ hsv_to_rgb (180 / 360) (1 / 10) 1 ∧
    (generate_color_dict [] 2 [⟨0, 1, "R", "A", some JobTypes.PROCESS⟩] []).1 =
      [("A", some (hsv_to_rgb (44 / 360) (70 / 100) (9 / 10)))] := by
  refine ⟨?_, ?_, changeover_color_eval, hsv_half_hue_eval, ?_, ?_⟩
  · simp [generate_color_dict, runColorDict, dictHasKey, dictLookup, dictSet]
  · simp [generate_color_dict, runColorDict, dictHasKey, dictLookup, dictSet]
  · rw [changeover_color_eval, hsv_half_hue_eval]
    norm_num
  · simp [generate_color_dict, runColorDict, dictHasKey, dictLookup, dictSet, processing_color]

/-! ### Claim C1 -/

/-- Claim C1 (counterexample): with `step_size = 8 > 0` and
`max_value = 160 > 0`, where 160 is a multiple of 8, the tick list produced by
`_find_xticks` contains 160 twice — the final append is unconditional — so
`max_value` does not appear exactly once. -/
theorem find_xticks_duplicate_final_tick :
    (0 : ℚ) < 8 ∧ (0 : ℚ) < 160 ∧
    (find_xticks 8 160).1 =
      [0, 8, 16, 24, 32, 40, 48, 56, 64, 72, 80, 88, 96, 104, 112, 120, 128,
       136, 144, 152, 160, 160] ∧
    (find_xticks 8 160).1.count 160 = 2 := by
  have h : ⌊(160 : ℚ) / 8⌋ = 20 := by
    rw [Int.floor_eq_iff]
    norm_num
  have h21 : ((⌊(160 : ℚ) / 8⌋ + 1).toNat) = 21 := by
    rw [h]
    rfl
  have hlist : (find_xticks 8 160).1 =
      [0, 8, 16, 24, 32, 40, 48, 56, 64, 72, 80, 88, 96, 104, 112, 120, 128,
       136, 144, 152, 160, 160] := by
    simp only [find_xticks, h21]
    norm_num [List.range_succ]
  refine ⟨by norm_num, by norm_num, hlist, ?_⟩
  rw [hlist]
  norm_num [List.count_cons, List.count_nil]

/-- Claim C1 (amended): for positive step size and positive maximum, the tick
list is the multiples `0, step, ..., (max // step) * step` with the maximum
appended unconditionally; the maximum therefore appears exactly once when it is
not a multiple of the step size, and twice when it is. -/
theorem find_xticks_spec (step_size max_value : ℚ) (hs : 0 < step_size)
    (hm : 0 < max_value) :
    (find_xticks step_size max_value).1 =
      ((List.range (⌊max_value / step_size⌋ + 1).toNat).map
        (fun ii : ℕ => (ii : ℚ) * step_size)) ++ [max_value] ∧
    (find_xticks step_size max_value).1.count max_value =
      (if (⌊max_value / step_size⌋ : ℚ) * step_size = max_value then 2 else 1) := by
  constructor
  · rfl
  · have hs0 : step_size ≠ 0 := ne_of_gt hs
    have hF0 : (0 : ℤ) ≤ ⌊max_value / step_size⌋ :=
      Int.floor_nonneg.mpr (le_of_lt (div_pos hm hs))
    have hnd : ((List.range (⌊max_value / step_size⌋ + 1).toNat).map
        (fun ii : ℕ => (ii : ℚ) * step_size)).Nodup := by
      refine List.Nodup.map ?_ (List.nodup_range _)
      intro a b hab
      have : (a : ℚ) = (b : ℚ) := mul_right_cancel₀ hs0 hab
      exact_mod_cast this
    have hmem : max_value ∈ (List.range (⌊max_value / step_size⌋ + 1).toNat).map
        (fun ii : ℕ => (ii : ℚ) * step_size) ↔
        (⌊max_value / step_size⌋ : ℚ) * step_size = max_value := by
      constructor
      · intro hin
        rcases List.mem_map.mp hin with ⟨i, _, hi⟩
        have hdiv : max_value / step_size = (i : ℚ) := by
          rw [div_eq_iff hs0, hi]
        rw [hdiv, Int.floor_natCast]
        exact_mod_cast hi
      · intro heq
        refine List.mem_map.mpr ⟨⌊max_value / step_size⌋.toNat, ?_, ?_⟩
        · refine List.mem_range.mpr ?_
          omega
        · rw [show ((⌊max_value / step_size⌋.toNat : ℕ) : ℚ) =
              ((⌊max_value / step_size⌋ : ℤ) : ℚ) by
            exact_mod_cast congrArg (fun z : ℤ => (z : ℚ)) (Int.toNat_of_nonneg hF0)]
          exact heq
    rw [show (find_xticks step_size max_value).1 =
        ((List.range (⌊max_value / step_size⌋ + 1).toNat).map
          (fun ii : ℕ => (ii : ℚ) * step_size)) ++ [max_value] from rfl]
    rw [List.count_append]
    by_cases hmul : (⌊max_value / step_size⌋ : ℚ) * step_size = max_value
    · rw [if_pos hmul, List.count_eq_one_of_mem hnd (hmem.mpr hmul)]
      simp
    · rw [if_neg hmul,
        List.count_eq_zero_of_not_mem (fun hin => hmul (hmem.mp hin))]
      simp

theorem find_xticks_spec_witness :
    ((0 : ℚ) < 8 ∧ (0 : ℚ) < 165) ∧
    ((find_xticks 8 165).1 =
      ((List.range (⌊(165 : ℚ) / 8⌋ + 1).toNat).map (fun ii : ℕ => (ii : ℚ) * 8)) ++ [165] ∧
    (find_xticks 8 165).1.count 165 =
      (if (⌊(165 : ℚ) / 8⌋ : ℚ) * 8 = 165 then 2 else 1)) ∧
    (find_xticks 8 165).1.count 165 = 1 := by
  have h : ⌊(165 : ℚ) / 8⌋ = 20 := by
    rw [Int.floor_eq_iff]
    norm_num
  have main := find_xticks_spec 8 165 (by norm_num) (by norm_num)
  refine ⟨⟨by norm_num, by norm_num⟩, main, ?_⟩
  rw [main.2, h]
  norm_num

/-! ### Claim C3 -/

theorem jobFromDoc_jobToDoc (job : GanttJob) : jobFromDoc (jobToDoc job) = some job := by
  cases job with
  | mk st du re na ty =>
    cases ty with
    | none => simp [jobToDoc, jobFromDoc]
    | some t =>
      cases t <;> simp [jobToDoc, jobFromDoc, JobTypes.value, JobTypes.fromValue]

theorem mapOption_jobFromDoc_map (jobs : List GanttJob) :
    mapOption jobFromDoc (jobs.map jobToDoc) = some jobs := by
  induction jobs with
  | nil => simp [mapOption]
  | cons j rest ih => simp [mapOption, jobFromDoc_jobToDoc, ih]

theorem dict_serialize_roundtrip (d : ColorDict)
    (h : ∀ kv ∈ d, (Prod.snd kv).isSome = true) :
    ∃ l, mapOption (fun (kv : String × Option Color) => kv.2.map (fun c => (kv.1, c))) d
        = some l ∧
      l.map (fun kv => (kv.1, some kv.2)) = d := by
  induction d with
  | nil => exact ⟨[], by simp [mapOption], rfl⟩
  | cons kv rest ih =>
    obtain ⟨k, v⟩ := kv
    obtain ⟨c, rfl⟩ := Option.isSome_iff_exists.mp (h (k, v) (by simp))
    obtain ⟨l, hl1, hl2⟩ := ih (fun kv hkv => h kv (List.mem_cons_of_mem _ hkv))
    exact ⟨(k, c) :: l, by simp [mapOption, hl1], by simp [hl2]⟩

/-- Claim C3: `from_json (to_json s)` reconstructs the plotter state exactly —
same resources in the same order, same jobs in all five fields (a `None`
`job_type` round-trips to `None`), same x-tick overrides and the color
dictionary restored verbatim — whenever the stored colors are numeric arrays
(`value.tolist()` requires that); the serialization timestamp `now` exists
only in the document and cannot perturb the reconstruction. -/
theorem json_round_trip (p : PlotterState) (now : String)
    (h : ∀ kv ∈ p.job_color_dict, (Prod.snd kv).isSome = true) :
    (to_json now p).bind from_json = some p := by
  cases p with
  | mk y b jobs res dict step maxv =>
    obtain ⟨l, hl1, hl2⟩ := dict_serialize_roundtrip dict (by simpa using h)
    simp [to_json, from_json, hl1, mapOption_jobFromDoc_map, hl2]

theorem json_round_trip_witness :
    (∀ kv ∈ ([("Job1", some ((1 : ℚ), (0 : ℚ), (0 : ℚ))),
              ("CO", some ((0 : ℚ), (1 : ℚ), (0 : ℚ)))] : ColorDict),
      (Prod.snd kv).isSome = true) ∧
    (to_json "2023-05-25T00:00:00"
      ⟨10, 10,
       [⟨40, 50, "U1", "Job1", some JobTypes.PROCESS⟩,
        ⟨110, 30, "U1", "CO", some JobTypes.CHANGEOVER⟩,
        ⟨0, 5, "U2", "J0", none⟩],
       ["U1", "U2"],
       [("Job1", some ((1 : ℚ), (0 : ℚ), (0 : ℚ))),
        ("CO", some ((0 : ℚ), (1 : ℚ), (0 : ℚ)))],
       some 8, some 160⟩).bind from_json =
      some ⟨10, 10,
       [⟨40, 50, "U1", "Job1", some JobTypes.PROCESS⟩,
        ⟨110, 30, "U1", "CO", some JobTypes.CHANGEOVER⟩,
        ⟨0, 5, "U2", "J0", none⟩],
       ["U1", "U2"],
       [("Job1", some ((1 : ℚ), (0 : ℚ), (0 : ℚ))),
        ("CO", some ((0 : ℚ), (1 : ℚ), (0 : ℚ)))],
       some 8, some 160⟩ := by
  refine ⟨by simp, json_round_trip _ "2023-05-25T00:00:00" (by simp)⟩

/-! ### Unfolding lemmas for the color-assignment loop -/

theorem warnOn_of_lookup_none (d : ColorDict) (n : String) (v : Option Color)
    (h : dictLookup d n = none) : warnOn d n v = false := by
  simp [warnOn, h]

theorem warnOn_of_lookup_same (d : ColorDict) (n : String) (v : Option Color)
    (h : dictLookup d n = some v) : warnOn d n v = false := by
  simp [warnOn, h, arrayEqual_refl]

theorem run0_cons_skip (colors : List Color) (job : GanttJob) (rest : List GanttJob)
    (d : ColorDict) (idx : ℕ) (h : dictHasKey d job.name = true) :
    runColorDict colors 0 (job :: rest) d idx = runColorDict colors 0 rest d idx := by
  simp [runColorDict, h]

theorem run0_cons_new (colors : List Color) (job : GanttJob) (rest : List GanttJob)
    (d : ColorDict) (idx : ℕ) (h : dictHasKey d job.name = false) :
    runColorDict colors 0 (job :: rest) d idx =
      runColorDict colors 0 rest (dictSet d job.name (some (colors.getD idx default)))
        (idx + 1) := by
  have hlook : dictLookup d job.name = none := by
    simpa [dictHasKey, Option.isSome_iff_exists] using h
  simp [runColorDict, h, warnOn_of_lookup_none d job.name _ hlook]

/-! ### Claim C5 -/

/-- The unique job names still needing a color, relative to the keys of `d`,
in first-encountered order (proof helper). -/
def newUniqueNames (d : ColorDict) : List GanttJob → List String
  | [] => []
  | job :: rest =>
    if dictHasKey d job.name then newUniqueNames d rest
    else job.name :: newUniqueNames (dictSet d job.name none) rest

/-- The dictionary tail mode 0 appends: the `k`-th fresh name paired with the
palette color at `idx + k` (proof helper). -/
def mode0Tail (colors : List Color) : ℕ → List String → ColorDict
  | _, [] => []
  | idx, n :: rest => (n, some (colors.getD idx default)) :: mode0Tail colors (idx + 1) rest

theorem newUniqueNames_congr (d1 d2 : ColorDict) (jobs : List GanttJob)
    (h : ∀ n, dictHasKey d1 n = dictHasKey d2 n) :
    newUniqueNames d1 jobs = newUniqueNames d2 jobs := by
  induction jobs generalizing d1 d2 with
  | nil => rfl
  | cons job rest ih =>
    simp only [newUniqueNames, h job.name]
    cases hk : dictHasKey d2 job.name with
    | true =>
      simp only [hk, if_pos rfl]
      exact ih d1 d2 h
    | false =>
      simp only [hk, Bool.false_eq_true, if_false, List.cons.injEq, true_and]
      refine ih _ _ ?_
      intro n
      simp [dictHasKey_dictSet, h n]

theorem run0_eq (colors : List Color) (jobs : List GanttJob) (d : ColorDict) (idx : ℕ) :
    runColorDict colors 0 jobs d idx =
      (d ++ mode0Tail colors idx (newUniqueNames d jobs), []) := by
  induction jobs generalizing d idx with
  | nil => simp [runColorDict, newUniqueNames, mode0Tail]
  | cons job rest ih =>
    by_cases hk : dictHasKey d job.name = true
    · rw [run0_cons_skip colors job rest d idx hk, ih]
      simp [newUniqueNames, hk]
    · have hk2 : dictHasKey d job.name = false := by
        simpa using hk
      have hlook : dictLookup d job.name = none := by
        simpa [dictHasKey, Option.isSome_iff_exists] using hk2
      rw [run0_cons_new colors job rest d idx hk2, ih]
      rw [newUniqueNames_congr (dictSet d job.name (some (colors.getD idx default)))
            (dictSet d job.name none) rest
            (by intro n; simp [dictHasKey_dictSet])]
      rw [dictSet_append_of_not_mem d job.name _ hlook]
      simp [newUniqueNames, hk2, mode0Tail]

theorem unique_foldl_eq (jobs : List GanttJob) (acc : List String) (d : ColorDict)
    (h : ∀ n, n ∈ acc ↔ dictHasKey d n = true) :
    jobs.foldl (fun acc job => if job.name ∈ acc then acc else acc ++ [job.name]) acc =
      acc ++ newUniqueNames d jobs := by
  induction jobs generalizing acc d with
  | nil => simp [newUniqueNames]
  | cons job rest ih =>
    simp only [List.foldl_cons, newUniqueNames]
    by_cases hk : dictHasKey d job.name = true
    · rw [if_pos ((h job.name).mpr hk), if_pos hk, ih acc d h]
    · have hmem : job.name ∉ acc := fun hm => hk ((h job.name).mp hm)
      have ih2 := ih (acc ++ [job.name]) (dictSet d job.name none) (by
        intro n
        simp [List.mem_append, h n, dictHasKey_dictSet])
      rw [if_neg hmem, if_neg hk, ih2]
      simp

theorem unique_eq_newUniqueNames (jobs : List GanttJob) :
    unique_job_names jobs = newUniqueNames ([] : ColorDict) jobs := by
  simpa [unique_job_names] using
    unique_foldl_eq jobs [] [] (by intro n; simp [dictHasKey, dictLookup])

theorem mode0Tail_eq_enumFrom (colors : List Color) (idx : ℕ) (names : List String) :
    mode0Tail colors idx names =
      (names.enumFrom idx).map (fun p => (p.2, some (colors.getD p.1 default))) := by
  induction names generalizing idx with
  | nil => rfl
  | cons n rest ih => simp [mode0Tail, List.enumFrom_cons, ih]

/-- Claim C5: mode 0 starting from an empty dictionary gives every unique job
name exactly one entry, in first-encountered order, with the `k`-th unique
name receiving the palette color of index `k` (the generator index advances
only for names not already present, so a repeated name keeps its first
color), and no overwrite warning is emitted.  The hypothesis records that the
palette is large enough, as it always is in `generate_gantt`, where it is
sized to the number of unique names. -/
theorem mode0_assignment_spec (colors : List Color) (jobs : List GanttJob)
    (_h : (unique_job_names jobs).length ≤ colors.length) :
    generate_color_dict colors 0 jobs [] =
      ((unique_job_names jobs).enum.map
        (fun p => (p.2, some (colors.getD p.1 default))), []) := by
  rw [generate_color_dict, run0_eq, unique_eq_newUniqueNames, mode0Tail_eq_enumFrom]
  simp [List.enum]

theorem mode0_assignment_spec_witness :
    (unique_job_names
      [⟨40, 50, "U1", "Job1", some JobTypes.PROCESS⟩,
       ⟨110, 10, "U2", "Job2", some JobTypes.PROCESS⟩,
       ⟨150, 10, "U2", "Job1", some JobTypes.PROCESS⟩]).length ≤
      ([((1 : ℚ), (0 : ℚ), (0 : ℚ)), ((0 : ℚ), (1 : ℚ), (0 : ℚ))] : List Color).length ∧
    generate_color_dict [((1 : ℚ), (0 : ℚ), (0 : ℚ)), ((0 : ℚ), (1 : ℚ), (0 : ℚ))] 0
      [⟨40, 50, "U1", "Job1", some JobTypes.PROCESS⟩,
       ⟨110, 10, "U2", "Job2", some JobTypes.PROCESS⟩,
       ⟨150, 10, "U2", "Job1", some JobTypes.PROCESS⟩] [] =
      ((unique_job_names
        [⟨40, 50, "U1", "Job1", some JobTypes.PROCESS⟩,
         ⟨110, 10, "U2", "Job2", some JobTypes.PROCESS⟩,
         ⟨150, 10, "U2", "Job1", some JobTypes.PROCESS⟩]).enum.map
        (fun p => (p.2, some (([((1 : ℚ), (0 : ℚ), (0 : ℚ)),
          ((0 : ℚ), (1 : ℚ), (0 : ℚ))] : List Color).getD p.1 default))), []) ∧
    generate_color_dict [((1 : ℚ), (0 : ℚ), (0 : ℚ)), ((0 : ℚ), (1 : ℚ), (0 : ℚ))] 0
      [⟨40, 50, "U1", "Job1", some JobTypes.PROCESS⟩,
       ⟨110, 10, "U2", "Job2", some JobTypes.PROCESS⟩,
       ⟨150, 10, "U2", "Job1", some JobTypes.PROCESS⟩] [] =
      ([("Job1", some ((1 : ℚ), (0 : ℚ), (0 : ℚ))),
        ("Job2", some ((0 : ℚ), (1 : ℚ), (0 : ℚ)))], []) := by
  refine ⟨by simp [unique_job_names], mode0_assignment_spec _ _ (by simp [unique_job_names]), ?_⟩
  simp [generate_color_dict, runColorDict, dictHasKey, dictLookup, dictSet, warnOn]

/-! ### Claim C4 -/

theorem runColorDict_keys_mono (colors : List Color) (mode : ℤ) (jobs : List GanttJob)
    (n : String) :
    ∀ (d : ColorDict) (idx : ℕ), dictHasKey d n = true →
      dictHasKey (runColorDict colors mode jobs d idx).1 n = true := by
  induction jobs with
  | nil =>
    intro d idx h
    simpa [runColorDict] using h
  | cons job rest ih =>
    intro d idx h
    simp only [runColorDict]
    split
    · exact ih d idx h
    · exact ih _ _ (by simp [dictHasKey_dictSet, h])

theorem run1_cons_changeover (colors : List Color) (job : GanttJob) (rest : List GanttJob)
    (d : ColorDict) (idx : ℕ) (h : job.job_type = some JobTypes.CHANGEOVER) :
    runColorDict colors 1 (job :: rest) d idx =
      ((runColorDict colors 1 rest (dictSet d job.name (some changeover_color)) idx).1,
       (if warnOn d job.name (some changeover_color) then [job.name] else []) ++
         (runColorDict colors 1 rest (dictSet d job.name (some changeover_color)) idx).2) := by
  simp [runColorDict, h]

theorem run1_cons_process_skip (colors : List Color) (job : GanttJob) (rest : List GanttJob)
    (d : ColorDict) (idx : ℕ) (h1 : ¬job.job_type = some JobTypes.CHANGEOVER)
    (h2 : dictHasKey d job.name = true) :
    runColorDict colors 1 (job :: rest) d idx = runColorDict colors 1 rest d idx := by
  simp [runColorDict, h1, h2]

theorem run1_cons_process_new (colors : List Color) (job : GanttJob) (rest : List GanttJob)
    (d : ColorDict) (idx : ℕ) (h1 : ¬job.job_type = some JobTypes.CHANGEOVER)
    (h2 : dictHasKey d job.name = false) :
    runColorDict colors 1 (job :: rest) d idx =
      runColorDict colors 1 rest (dictSet d job.name (some (colors.getD idx default)))
        (idx + 1) := by
  have hlook : dictLookup d job.name = none := by
    simpa [dictHasKey, Option.isSome_iff_exists] using h2
  simp [runColorDict, h1, h2, warnOn_of_lookup_none d job.name _ hlook]

/-- The fixed color mode 2 assigns to a job, by its type (proof helper). -/
def modeTwoColor (job : GanttJob) : Color :=
  if job.job_type = some JobTypes.CHANGEOVER then changeover_color else processing_color

theorem run2_cons (colors : List Color) (job : GanttJob) (rest : List GanttJob)
    (d : ColorDict) (idx : ℕ) :
    runColorDict colors 2 (job :: rest) d idx =
      ((runColorDict colors 2 rest (dictSet d job.name (some (modeTwoColor job))) idx).1,
       (if warnOn d job.name (some (modeTwoColor job)) then [job.name] else []) ++
         (runColorDict colors 2 rest (dictSet d job.name (some (modeTwoColor job))) idx).2) := by
  by_cases h : job.job_type = some JobTypes.CHANGEOVER <;>
    simp [runColorDict, modeTwoColor, h]

theorem run0_names_present (colors : List Color) (jobs : List GanttJob) :
    ∀ (d : ColorDict) (idx : ℕ) (job : GanttJob), job ∈ jobs →
      dictHasKey (runColorDict colors 0 jobs d idx).1 job.name = true := by
  induction jobs with
  | nil =>
    intro d idx job hmem
    simp at hmem
  | cons j0 rest ih =>
    intro d idx job hmem
    by_cases hk : dictHasKey d j0.name = true
    · rw [run0_cons_skip colors j0 rest d idx hk]
      rcases List.mem_cons.mp hmem with rfl | hr
      · exact runColorDict_keys_mono colors 0 rest job.name d idx hk
      · exact ih d idx job hr
    · have hk2 : dictHasKey d j0.name = false := by simpa using hk
      rw [run0_cons_new colors j0 rest d idx hk2]
      rcases List.mem_cons.mp hmem with rfl | hr
      · exact runColorDict_keys_mono colors 0 rest job.name _ _
          (by simp [dictHasKey_dictSet])
      · exact ih _ _ job hr

theorem run0_noop (colors : List Color) (jobs : List GanttJob) (d : ColorDict) (idx : ℕ)
    (h : ∀ job ∈ jobs, dictHasKey d job.name = true) :
    runColorDict colors 0 jobs d idx = (d, []) := by
  induction jobs with
  | nil => rfl
  | cons j0 rest ih =>
    rw [run0_cons_skip colors j0 rest d idx (h j0 (List.mem_cons_self j0 rest))]
    exact ih (fun job hj => h job (List.mem_cons_of_mem j0 hj))

theorem run1_names_present (colors : List Color) (jobs : List GanttJob) :
    ∀ (d : ColorDict) (idx : ℕ) (job : GanttJob), job ∈ jobs →
      dictHasKey (runColorDict colors 1 jobs d idx).1 job.name = true := by
  induction jobs with
  | nil =>
    intro d idx job hmem
    simp at hmem
  | cons j0 rest ih =>
    intro d idx job hmem
    by_cases htype : j0.job_type = some JobTypes.CHANGEOVER
    · rw [run1_cons_changeover colors j0 rest d idx htype]
      rcases List.mem_cons.mp hmem with rfl | hr
      · exact runColorDict_keys_mono colors 1 rest job.name _ _
          (by simp [dictHasKey_dictSet])
      · exact ih _ _ job hr
    · by_cases hk : dictHasKey d j0.name = true
      · rw [run1_cons_process_skip colors j0 rest d idx htype hk]
        rcases List.mem_cons.mp hmem with rfl | hr
        · exact runColorDict_keys_mono colors 1 rest job.name d idx hk
        · exact ih d idx job hr
      · have hk2 : dictHasKey d j0.name = false := by simpa using hk
        rw [run1_cons_process_new colors j0 rest d idx htype hk2]
        rcases List.mem_cons.mp hmem with rfl | hr
        · exact runColorDict_keys_mono colors 1 rest job.name _ _
            (by simp [dictHasKey_dictSet])
        · exact ih _ _ job hr

theorem run1_preserve_cc (colors : List Color) (jobs : List GanttJob) :
    ∀ (d : ColorDict) (idx : ℕ) (n : String),
      dictLookup d n = some (some changeover_color) →
      dictLookup (runColorDict colors 1 jobs d idx).1 n = some (some changeover_color) := by
  induction jobs with
  | nil =>
    intro d idx n h
    simpa [runColorDict] using h
  | cons j0 rest ih =>
    intro d idx n h
    by_cases htype : j0.job_type = some JobTypes.CHANGEOVER
    · rw [run1_cons_changeover colors j0 rest d idx htype]
      by_cases hn : j0.name = n
      · subst hn
        exact ih _ _ _ (dictLookup_dictSet_self d j0.name _)
      · exact ih _ _ _ (by rw [dictLookup_dictSet_ne d j0.name n _ hn]; exact h)
    · by_cases hk : dictHasKey d j0.name = true
      · rw [run1_cons_process_skip colors j0 rest d idx htype hk]
        exact ih d idx n h
      · have hk2 : dictHasKey d j0.name = false := by simpa using hk
        have hn : j0.name ≠ n := by
          intro he
          rw [he] at hk2
          simp [dictHasKey, h] at hk2
        rw [run1_cons_process_new colors j0 rest d idx htype hk2]
        exact ih _ _ _ (by rw [dictLookup_dictSet_ne d j0.name n _ hn]; exact h)

theorem run1_changeover_result (colors : List Color) (jobs : List GanttJob) :
    ∀ (d : ColorDict) (idx : ℕ) (job : GanttJob), job ∈ jobs →
      job.job_type = some JobTypes.CHANGEOVER →
      dictLookup (runColorDict colors 1 jobs d idx).1 job.name =
        some (some changeover_color) := by
  induction jobs with
  | nil =>
    intro d idx job hmem
    simp at hmem
  | cons j0 rest ih =>
    intro d idx job hmem htype
    by_cases htype0 : j0.job_type = some JobTypes.CHANGEOVER
    · rw [run1_cons_changeover colors j0 rest d idx htype0]
      rcases List.mem_cons.mp hmem with rfl | hr
      · exact run1_preserve_cc colors rest _ _ _ (dictLookup_dictSet_self d job.name _)
      · exact ih _ _ job hr htype
    · have hne : job ≠ j0 := fun he => htype0 (he ▸ htype)
      have hr : job ∈ rest := by
        rcases List.mem_cons.mp hmem with he | hr
        · exact absurd he hne
        · exact hr
      by_cases hk : dictHasKey d j0.name = true
      · rw [run1_cons_process_skip colors j0 rest d idx htype0 hk]
        exact ih d idx job hr htype
      · have hk2 : dictHasKey d j0.name = false := by simpa using hk
        rw [run1_cons_process_new colors j0 rest d idx htype0 hk2]
        exact ih _ _ job hr htype

theorem run1_noop (colors : List Color) (jobs : List GanttJob) (d : ColorDict) (idx : ℕ)
    (hkeys : ∀ job ∈ jobs, dictHasKey d job.name = true)
    (hcc : ∀ job ∈ jobs, job.job_type = some JobTypes.CHANGEOVER →
      dictLookup d job.name = some (some changeover_color)) :
    runColorDict colors 1 jobs d idx = (d, []) := by
  induction jobs with
  | nil => rfl
  | cons j0 rest ih =>
    by_cases htype : j0.job_type = some JobTypes.CHANGEOVER
    · have hlook := hcc j0 (List.mem_cons_self j0 rest) htype
      rw [run1_cons_changeover colors j0 rest d idx htype,
        dictSet_eq_self d j0.name _ hlook,
        warnOn_of_lookup_same d j0.name _ hlook,
        ih (fun job hj => hkeys job (List.mem_cons_of_mem j0 hj))
          (fun job hj ht => hcc job (List.mem_cons_of_mem j0 hj) ht)]
      simp
    · rw [run1_cons_process_skip colors j0 rest d idx htype
        (hkeys j0 (List.mem_cons_self j0 rest))]
      exact ih (fun job hj => hkeys job (List.mem_cons_of_mem j0 hj))
        (fun job hj ht => hcc job (List.mem_cons_of_mem j0 hj) ht)

theorem run2_preserve (colors : List Color) (jobs : List GanttJob) :
    ∀ (d : ColorDict) (idx : ℕ) (n : String) (c : Option Color),
      dictLookup d n = some c →
      (∀ job ∈ jobs, job.name = n → some (modeTwoColor job) = c) →
      dictLookup (runColorDict colors 2 jobs d idx).1 n = some c := by
  induction jobs with
  | nil =>
    intro d idx n c h _
    simpa [runColorDict] using h
  | cons j0 rest ih =>
    intro d idx n c h h2
    rw [run2_cons colors j0 rest d idx]
    by_cases hn : j0.name = n
    · have hc : some (modeTwoColor j0) = c :=
        h2 j0 (List.mem_cons_self j0 rest) hn
      refine ih _ _ _ _ ?_ (fun job hj hjn => h2 job (List.mem_cons_of_mem j0 hj) hjn)
      rw [hn, dictLookup_dictSet_self]
      exact congrArg some hc
    · refine ih _ _ _ _ ?_ (fun job hj hjn => h2 job (List.mem_cons_of_mem j0 hj) hjn)
      rw [dictLookup_dictSet_ne d j0.name n _ hn]
      exact h

theorem run2_result (colors : List Color) (jobs : List GanttJob) :
    ∀ (d : ColorDict) (idx : ℕ) (job : GanttJob), job ∈ jobs →
      (∀ j1 ∈ jobs, ∀ j2 ∈ jobs, j1.name = j2.name → j1.job_type = j2.job_type) →
      dictLookup (runColorDict colors 2 jobs d idx).1 job.name =
        some (some (modeTwoColor job)) := by
  induction jobs with
  | nil =>
    intro d idx job hmem
    simp at hmem
  | cons j0 rest ih =>
    intro d idx job hmem hcons
    rw [run2_cons colors j0 rest d idx]
    rcases List.mem_cons.mp hmem with rfl | hr
    · refine run2_preserve colors rest _ idx job.name (some (modeTwoColor job))
        (dictLookup_dictSet_self d job.name _) ?_
      intro j1 h1 hn1
      have ht := hcons j1 (List.mem_cons_of_mem job h1) job (List.mem_cons_self job rest) hn1
      simp [modeTwoColor, ht]
    · exact ih _ _ job hr
        (fun j1 h1 j2 h2 => hcons j1 (List.mem_cons_of_mem j0 h1) j2 (List.mem_cons_of_mem j0 h2))

theorem run2_noop (colors : List Color) (jobs : List GanttJob) (d : ColorDict) (idx : ℕ)
    (h : ∀ job ∈ jobs, dictLookup d job.name = some (some (modeTwoColor job))) :
    runColorDict colors 2 jobs d idx = (d, []) := by
  induction jobs with
  | nil => rfl
  | cons j0 rest ih =>
    have hlook := h j0 (List.mem_cons_self j0 rest)
    rw [run2_cons colors j0 rest d idx,
      dictSet_eq_self d j0.name _ hlook,
      warnOn_of_lookup_same d j0.name _ hlook,
      ih (fun job hj => h job (List.mem_cons_of_mem j0 hj))]
    simp

/-- Claim C4 (amended): re-running color assignment over the same job list on
the dictionary produced by a first run (from an empty dictionary) leaves the
dictionary unchanged and emits no overwrite warning — unconditionally for
modes 0 and 1, and for mode 2 provided no job name occurs with two different
`job_type`s; when a name carries both types under mode 2, the re-run emits
overwrite warnings (see the counterexample). -/
theorem color_assignment_idempotent (colors : List Color) (mode : ℤ) (jobs : List GanttJob)
    (h : mode = 0 ∨ mode = 1 ∨ (mode = 2 ∧
      ∀ j1 ∈ jobs, ∀ j2 ∈ jobs, j1.name = j2.name → j1.job_type = j2.job_type)) :
    generate_color_dict colors mode jobs (generate_color_dict colors mode jobs []).1 =
      ((generate_color_dict colors mode jobs []).1, []) := by
  rcases h with rfl | rfl | ⟨rfl, hcons⟩
  · exact run0_noop colors jobs _ 0 (fun job hj => run0_names_present colors jobs [] 0 job hj)
  · exact run1_noop colors jobs _ 0
      (fun job hj => run1_names_present colors jobs [] 0 job hj)
      (fun job hj ht => run1_changeover_result colors jobs [] 0 job hj ht)
  · exact run2_noop colors jobs _ 0
      (fun job hj => run2_result colors jobs [] 0 job hj hcons)

/-- Claim C4 (counterexample): under mode 2, with the job name "A" carried by
both a PROCESS job and a CHANGEOVER job, re-running color assignment on the
dictionary produced by a first run emits an overwrite warning for every one of
the two jobs — the claim's "emits no overwrite warning" fails (the dictionary
itself is unchanged: both runs end with "A" at the changeover color). -/
theorem mode2_rerun_warns :
    (generate_color_dict [] 2
      [⟨0, 1, "R", "A", some JobTypes.PROCESS⟩, ⟨1, 1, "R", "A", some JobTypes.CHANGEOVER⟩]
      (generate_color_dict [] 2
        [⟨0, 1, "R", "A", some JobTypes.PROCESS⟩, ⟨1, 1, "R", "A", some JobTypes.CHANGEOVER⟩]
        []).1).2 = ["A", "A"] ∧
    (generate_color_dict [] 2
      [⟨0, 1, "R", "A", some JobTypes.PROCESS⟩, ⟨1, 1, "R", "A", some JobTypes.CHANGEOVER⟩]
      (generate_color_dict [] 2
        [⟨0, 1, "R", "A", some JobTypes.PROCESS⟩, ⟨1, 1, "R", "A", some JobTypes.CHANGEOVER⟩]
        []).1).2 ≠ [] := by
  have hne1 : ¬(processing_color = changeover_color) := by
    rw [processing_color_eval, changeover_color_eval]
    norm_num [Prod.ext_iff]
  have hne2 : ¬(changeover_color = processing_color) := fun he => hne1 he.symm
  constructor
  · simp [generate_color_dict, runColorDict, dictHasKey, dictLookup, dictSet, warnOn,
      arrayEqual, decide_eq_false hne1, decide_eq_false hne2]
  · simp [generate_color_dict, runColorDict, dictHasKey, dictLookup, dictSet, warnOn,
      arrayEqual, decide_eq_false hne1, decide_eq_false hne2]

theorem color_assignment_idempotent_witness :
    ((2 : ℤ) = 0 ∨ (2 : ℤ) = 1 ∨ ((2 : ℤ) = 2 ∧
      ∀ j1 ∈ [(⟨0, 1, "R", "A", some JobTypes.PROCESS⟩ : GanttJob),
              ⟨1, 1, "R", "B", some JobTypes.CHANGEOVER⟩],
      ∀ j2 ∈ [(⟨0, 1, "R", "A", some JobTypes.PROCESS⟩ : GanttJob),
              ⟨1, 1, "R", "B", some JobTypes.CHANGEOVER⟩],
        j1.name = j2.name → j1.job_type = j2.job_type)) ∧
    generate_color_dict [] 2
      [⟨0, 1, "R", "A", some JobTypes.PROCESS⟩, ⟨1, 1, "R", "B", some JobTypes.CHANGEOVER⟩]
      (generate_color_dict [] 2
        [⟨0, 1, "R", "A", some JobTypes.PROCESS⟩, ⟨1, 1, "R", "B", some JobTypes.CHANGEOVER⟩]
        []).1 =
      ((generate_color_dict [] 2
        [⟨0, 1, "R", "A", some JobTypes.PROCESS⟩, ⟨1, 1, "R", "B", some JobTypes.CHANGEOVER⟩]
        []).1, []) := by
  have hcons : ∀ j1 ∈ [(⟨0, 1, "R", "A", some JobTypes.PROCESS⟩ : GanttJob),
      ⟨1, 1, "R", "B", some JobTypes.CHANGEOVER⟩],
      ∀ j2 ∈ [(⟨0, 1, "R", "A", some JobTypes.PROCESS⟩ : GanttJob),
              ⟨1, 1, "R", "B", some JobTypes.CHANGEOVER⟩],
        j1.name = j2.name → j1.job_type = j2.job_type := by
    intro j1 h1 j2 h2 hn
    rcases List.mem_cons.mp h1 with rfl | h1 <;>
      rcases List.mem_cons.mp h2 with rfl | h2 <;>
      simp_all
  exact ⟨Or.inr (Or.inr ⟨rfl, hcons⟩),
    color_assignment_idempotent [] 2 _ (Or.inr (Or.inr ⟨rfl, hcons⟩))⟩

/-! ### Claim C8 -/

theorem get_bar_height_eq_none (resources : List String) (r : String)
    (h : r ∉ resources) : get_bar_height resources r = none := by
  have hidx : (find_yticks resources).2.indexOf? r = none := by
    rw [List.indexOf?_eq_none_iff]
    intro x hx
    simp only [beq_iff_eq]
    intro he
    exact h (he ▸ hx)
  simp [get_bar_height, hidx]

theorem mapOption_eq_none (f : α → Option β) (l : List α) (x : α) (hx : x ∈ l)
    (hfx : f x = none) : mapOption f l = none := by
  induction l with
  | nil => simp at hx
  | cons y rest ih =>
    rcases List.mem_cons.mp hx with rfl | hr
    · simp [mapOption, hfx]
    · cases hfy : f y with
      | none => simp [mapOption, hfy]
      | some b => simp [mapOption, hfy, ih hr]

/-- `addToGroup` keeps every existing group key and ensures the new job's
resource has a group. -/
theorem addToGroup_mem_key (acc : List (String × List GanttJob)) (job : GanttJob)
    (r : String) (h : (∃ js, (r, js) ∈ acc) ∨ r = job.resource) :
    ∃ js, (r, js) ∈ addToGroup acc job := by
  induction acc with
  | nil =>
    rcases h with ⟨js, hjs⟩ | rfl
    · simp at hjs
    · exact ⟨[job], by simp [addToGroup]⟩
  | cons p rest ih =>
    obtain ⟨r0, js0⟩ := p
    by_cases hr0 : r0 = job.resource
    · subst hr0
      rcases h with ⟨js, hjs⟩ | rfl
      · rcases List.mem_cons.mp hjs with he | hm
        · exact ⟨js0 ++ [job], by simp [addToGroup, (Prod.mk.injEq _ _ _ _ ▸ he).1]⟩
        · exact ⟨js, by simp [addToGroup, List.mem_cons_of_mem _ hm]⟩
      · exact ⟨js0 ++ [job], by simp [addToGroup]⟩
    · rcases h with ⟨js, hjs⟩ | rfl
      · rcases List.mem_cons.mp hjs with he | hm
        · exact ⟨js0, by
            obtain ⟨h1, h2⟩ := Prod.mk.injEq _ _ _ _ ▸ he
            subst h1
            simp [addToGroup, hr0]⟩
        · obtain ⟨js2, hjs2⟩ := ih (Or.inl ⟨js, hm⟩)
          exact ⟨js2, by simp [addToGroup, hr0, List.mem_cons_of_mem _ hjs2]⟩
      · obtain ⟨js2, hjs2⟩ := ih (Or.inr rfl)
        exact ⟨js2, by simp [addToGroup, hr0, List.mem_cons_of_mem _ hjs2]⟩

theorem groupJobsByResource_mem_key (jobs : List GanttJob) :
    ∀ (acc : List (String × List GanttJob)) (job : GanttJob),
      job ∈ jobs ∨ (∃ js, (job.resource, js) ∈ acc) →
      ∃ js, (job.resource, js) ∈ jobs.foldl addToGroup acc := by
  induction jobs with
  | nil =>
    intro acc job h
    rcases h with h | h
    · simp at h
    · simpa using h
  | cons j0 rest ih =>
    intro acc job h
    simp only [List.foldl_cons]
    rcases h with h | h
    · rcases List.mem_cons.mp h with rfl | hr
      · exact ih (addToGroup acc job) job
          (Or.inr (addToGroup_mem_key acc job job.resource (Or.inr rfl)))
      · exact ih (addToGroup acc j0) job (Or.inl hr)
    · exact ih (addToGroup acc j0) job
        (Or.inr (addToGroup_mem_key acc j0 job.resource (Or.inl h)))

/-- Claim C8: looking up bar-band geometry for a resource name absent from the
resource sequence fails (`list.index` raises), and consequently the layout
pass of `_plot_jobs` over a job list containing a job bound to such a resource
fails as a whole rather than dropping the job. -/
theorem unknown_resource_fails (resources : List String) (dict : ColorDict)
    (jobs : List GanttJob) (r : String) (h1 : r ∉ resources)
    (h2 : ∃ job ∈ jobs, job.resource = r) :
    get_bar_height resources r = none ∧ plot_jobs resources dict jobs = none := by
  refine ⟨get_bar_height_eq_none resources r h1, ?_⟩
  obtain ⟨job, hj, hjr⟩ := h2
  obtain ⟨js, hmem⟩ := groupJobsByResource_mem_key jobs [] job (Or.inl hj)
  rw [hjr] at hmem
  refine mapOption_eq_none _ _ (r, js) hmem ?_
  have hbar : get_bar_height resources r = none := get_bar_height_eq_none resources r h1
  cases hbf : generate_bars_for_resource dict js with
  | none => simp [hbf]
  | some bf => simp [hbf, hbar]

theorem unknown_resource_fails_witness :
    ("U2" ∉ ["U1"] ∧
      ∃ job ∈ [(⟨0, 1, "U2", "J", some JobTypes.PROCESS⟩ : GanttJob)],
        GanttJob.resource job = "U2") ∧
    get_bar_height ["U1"] "U2" = none ∧
    plot_jobs ["U1"] [] [⟨0, 1, "U2", "J", some JobTypes.PROCESS⟩] = none := by
  have hnotin : "U2" ∉ ["U1"] := by decide
  have hex : ∃ job ∈ [(⟨0, 1, "U2", "J", some JobTypes.PROCESS⟩ : GanttJob)],
      GanttJob.resource job = "U2" :=
    ⟨⟨0, 1, "U2", "J", some JobTypes.PROCESS⟩, List.mem_singleton_self _, rfl⟩
  exact ⟨⟨hnotin, hex⟩, unknown_resource_fails ["U1"] [] _ "U2" hnotin hex⟩

/-! ### Claim C9 -/

theorem runElse_cons (colors : List Color) (mode : ℤ) (job : GanttJob)
    (rest : List GanttJob) (d : ColorDict) (idx : ℕ)
    (h0 : mode ≠ 0) (h1 : mode ≠ 1) (h2 : mode ≠ 2) :
    runColorDict colors mode (job :: rest) d idx =
      ((runColorDict colors mode rest (dictSet d job.name none) idx).1,
       (if warnOn d job.name none then [job.name] else []) ++
         (runColorDict colors mode rest (dictSet d job.name none) idx).2) := by
  simp [runColorDict, h0, h1, h2]

theorem runElse_preserve_none (colors : List Color) (mode : ℤ) (jobs : List GanttJob)
    (h0 : mode ≠ 0) (h1 : mode ≠ 1) (h2 : mode ≠ 2) :
    ∀ (d : ColorDict) (idx : ℕ) (n : String), dictLookup d n = some none →
      dictLookup (runColorDict colors mode jobs d idx).1 n = some none := by
  induction jobs with
  | nil =>
    intro d idx n h
    simpa [runColorDict] using h
  | cons j0 rest ih =>
    intro d idx n h
    rw [runElse_cons colors mode j0 rest d idx h0 h1 h2]
    by_cases hn : j0.name = n
    · subst hn
      exact ih _ _ _ (dictLookup_dictSet_self d j0.name none)
    · exact ih _ _ _ (by rw [dictLookup_dictSet_ne d j0.name n none hn]; exact h)

theorem runElse_names_none (colors : List Color) (mode : ℤ) (jobs : List GanttJob)
    (h0 : mode ≠ 0) (h1 : mode ≠ 1) (h2 : mode ≠ 2) :
    ∀ (d : ColorDict) (idx : ℕ) (job : GanttJob), job ∈ jobs →
      dictLookup (runColorDict colors mode jobs d idx).1 job.name = some none := by
  induction jobs with
  | nil =>
    intro d idx job hmem
    simp at hmem
  | cons j0 rest ih =>
    intro d idx job hmem
    rw [runElse_cons colors mode j0 rest d idx h0 h1 h2]
    rcases List.mem_cons.mp hmem with rfl | hr
    · exact runElse_preserve_none colors mode rest h0 h1 h2 _ _ _
        (dictLookup_dictSet_self d job.name none)
    · exact ih _ _ job hr

theorem runElse_warns (colors : List Color) (mode : ℤ) (jobs : List GanttJob)
    (h0 : mode ≠ 0) (h1 : mode ≠ 1) (h2 : mode ≠ 2) :
    ∀ (d : ColorDict) (idx : ℕ) (job : GanttJob), job ∈ jobs →
      ∀ c : Color, dictLookup d job.name = some (some c) →
        job.name ∈ (runColorDict colors mode jobs d idx).2 := by
  induction jobs with
  | nil =>
    intro d idx job hmem
    simp at hmem
  | cons j0 rest ih =>
    intro d idx job hmem c hc
    rw [runElse_cons colors mode j0 rest d idx h0 h1 h2]
    by_cases hn : j0.name = job.name
    · have hwarn : warnOn d j0.name none = true := by
        rw [hn]
        simp [warnOn, hc, arrayEqual]
      simp only [hwarn, if_pos rfl]
      exact List.mem_append.mpr (Or.inl (hn ▸ List.mem_singleton_self j0.name))
    · have hj : job ∈ rest := by
        rcases List.mem_cons.mp hmem with rfl | hr
        · exact absurd rfl hn
        · exact hr
      have hc2 : dictLookup (dictSet d j0.name none) job.name = some (some c) := by
        rw [dictLookup_dictSet_ne d j0.name job.name none hn]
        exact hc
      exact List.mem_append.mpr (Or.inr (ih _ _ job hj c hc2))

/-- Claim C9: a mode outside {0, 1, 2} is not rejected — the loop runs with
`new_color = None`, so every job name occurring in the list ends up mapped to
`None` (subsequent lookups return `None`), and any name whose previously
stored color was a real array gets an overwrite warning when it is first
overwritten with `None`. -/
theorem unknown_mode_maps_names_to_none (colors : List Color) (mode : ℤ)
    (jobs : List GanttJob) (dict : ColorDict)
    (h0 : mode ≠ 0) (h1 : mode ≠ 1) (h2 : mode ≠ 2) :
    (∀ job ∈ jobs,
      dictLookup (generate_color_dict colors mode jobs dict).1 job.name = some none) ∧
    (∀ job ∈ jobs, ∀ c : Color, dictLookup dict job.name = some (some c) →
      job.name ∈ (generate_color_dict colors mode jobs dict).2) :=
  ⟨fun job hj => runElse_names_none colors mode jobs h0 h1 h2 dict 0 job hj,
   fun job hj c hc => runElse_warns colors mode jobs h0 h1 h2 dict 0 job hj c hc⟩

theorem unknown_mode_maps_names_to_none_witness :
    ((5 : ℤ) ≠ 0 ∧ (5 : ℤ) ≠ 1 ∧ (5 : ℤ) ≠ 2) ∧
    (∀ job ∈ [(⟨0, 1, "R", "A", some JobTypes.PROCESS⟩ : GanttJob)],
      dictLookup (generate_color_dict [] 5
        [⟨0, 1, "R", "A", some JobTypes.PROCESS⟩]
        [("A", some ((1 : ℚ), (0 : ℚ), (0 : ℚ)))]).1 (GanttJob.name job) = some none) ∧
    (∀ job ∈ [(⟨0, 1, "R", "A", some JobTypes.PROCESS⟩ : GanttJob)],
      ∀ c : Color,
        dictLookup [("A", some ((1 : ℚ), (0 : ℚ), (0 : ℚ)))] (GanttJob.name job) =
          some (some c) →
        GanttJob.name job ∈ (generate_color_dict [] 5
          [⟨0, 1, "R", "A", some JobTypes.PROCESS⟩]
          [("A", some ((1 : ℚ), (0 : ℚ), (0 : ℚ)))]).2) := by
  have main := unknown_mode_maps_names_to_none ([] : List Color) 5
    [(⟨0, 1, "R", "A", some JobTypes.PROCESS⟩ : GanttJob)]
    [("A", some ((1 : ℚ), (0 : ℚ), (0 : ℚ)))]
    (by decide) (by decide) (by decide)
  exact ⟨⟨by decide, by decide, by decide⟩, main.1, main.2⟩
